import Mathlib

/-!
Verification of the educational-game generation pipelines
(`fixed_code_cleaner.py`, `adaptive_game_generator.py`,
`robust_game_generator.py`, `multi_agent_game_system.py`).

The Python code is shallowly embedded: strings become `List Char` / `String`,
the regular-expression substitutions of the sanitizers become explicit
scanners with the same leftmost, greedy-with-backtracking semantics as
Python's `re.sub` for the specific fixed patterns appearing in the source,
JSON values become an inductive `JValue` (numbers modelled as `Int`),
and the external LLM calls become oracles (`Nat → …`) indexed by attempt.
Character predicates (`isalnum`, `\s`, `upper`, `lower`) are modelled over
the ASCII range, the only range the tested inputs use.
-/

set_option maxHeartbeats 1000000
set_option maxRecDepth 100000

namespace GameGen

/-- Python's `\s` / `str.strip()` whitespace characters (ASCII range). -/
def isSpaceCh (c : Char) : Bool :=
  c = ' ' || c = '\t' || c = '\n' || c = '\r' || c = '\x0b' || c = '\x0c'

/-- The backtick character. -/
def tickCh : Char := Char.ofNat 96

/-- ASCII lower-casing, as `str.lower()` does on ASCII input. -/
def lowerCh (c : Char) : Char :=
  if 65 ≤ c.toNat ∧ c.toNat ≤ 90 then Char.ofNat (c.toNat + 32) else c

/-- ASCII upper-casing, as `str.upper()` does on ASCII input. -/
def upperCh (c : Char) : Char :=
  if 97 ≤ c.toNat ∧ c.toNat ≤ 122 then Char.ofNat (c.toNat - 32) else c

/-- Python's `str.isalnum()` restricted to the ASCII range. -/
def isAlnumCh (c : Char) : Bool :=
  ('0' ≤ c && c ≤ '9') || ('a' ≤ c && c ≤ 'z') || ('A' ≤ c && c ≤ 'Z')

/-- Python's `str.lstrip()`. -/
def pyLStrip (l : List Char) : List Char := l.dropWhile isSpaceCh

/-- Python's `str.rstrip()`. -/
def pyRStrip (l : List Char) : List Char := (l.reverse.dropWhile isSpaceCh).reverse

/-- Python's `str.strip()`. -/
def pyStrip (l : List Char) : List Char := pyRStrip (pyLStrip l)

/-- Case-sensitive prefix test: `startsWithL needle l`. -/
def startsWithL : List Char → List Char → Bool
  | [], _ => true
  | _ :: _, [] => false
  | n :: ns, c :: cs => n = c && startsWithL ns cs

/-- Case-insensitive prefix test; the needle is given in lower case. -/
def startsWithCI : List Char → List Char → Bool
  | [], _ => true
  | _ :: _, [] => false
  | n :: ns, c :: cs => n = lowerCh c && startsWithCI ns cs

/-- Substring test, Python's `needle in hay`. -/
def containsSub (needle : List Char) : List Char → Bool
  | [] => needle.isEmpty
  | c :: cs => startsWithL needle (c :: cs) || containsSub needle cs

/-- Number of positions at which `needle` occurs in the list. -/
def countSub (needle : List Char) : List Char → Nat
  | [] => if needle.isEmpty then 1 else 0
  | c :: cs => (if startsWithL needle (c :: cs) then 1 else 0) + countSub needle cs

/-- Python's `str.split('\n')`. -/
def splitNl : List Char → List (List Char)
  | [] => [[]]
  | c :: r =>
    if c = '\n' then [] :: splitNl r
    else
      match splitNl r with
      | [] => [[c]]
      | h :: t => (c :: h) :: t

/-- Python's `'\n'.join(...)`. -/
def joinNl : List (List Char) → List Char
  | [] => []
  | [x] => x
  | x :: y :: r => x ++ '\n' :: joinNl (y :: r)

/-! ## The regex-substitution machinery

Each fixed pattern used by the source becomes a matcher
`Bool → List Char → Option (List Char)`: taking whether the current
position is a `^` position (MULTILINE line start) and the remaining
input, returning the rest of the input after a match at this position
(matches of the source's patterns are never empty).  `reSub` mirrors
`re.sub(pat, '', s)`: scan left to right, replace every non-overlapping
match, continue after the match end; `^`-ness is judged on the original
string, as Python does. -/

def reSub (m : Bool → List Char → Option (List Char)) : Nat → Bool → List Char → List Char
  | 0, _, l => l
  | _ + 1, _, [] => []
  | fuel + 1, atLS, c :: r =>
    match m atLS (c :: r) with
    | some rest =>
      let k := (c :: r).length - rest.length
      if k = 0 then c :: reSub m fuel (c = '\n') r
      else reSub m fuel (decide (((c :: r).take k).getLast? = some '\n')) rest
    | none => c :: reSub m fuel (c = '\n') r

/-- Run a global substitution of the matcher over the whole string. -/
def reSubAll (m : Bool → List Char → Option (List Char)) (l : List Char) : List Char :=
  reSub m (l.length + 1) true l

/-- The characters of a markdown fence marker. -/
def fence3 : List Char := [tickCh, tickCh, tickCh]

/-- The characters of the word `html`, lower case. -/
def htmlChars : List Char := ['h', 't', 'm', 'l']

/-- Matcher for the pattern `^\x60\x60\x60html\s*\n?` (IGNORECASE | MULTILINE):
since `\s*` is greedy and may itself consume newlines, the trailing `\n?`
never consumes anything. -/
def mFenceHtml (atLS : Bool) (l : List Char) : Option (List Char) :=
  if atLS && startsWithL fence3 l && startsWithCI htmlChars (l.drop 3) then
    some ((l.drop 7).dropWhile isSpaceCh)
  else none

/-- Matcher for the pattern `^\x60\x60\x60\s*\n?` (MULTILINE). -/
def mFence (atLS : Bool) (l : List Char) : Option (List Char) :=
  if atLS && startsWithL fence3 l then
    some ((l.drop 3).dropWhile isSpaceCh)
  else none

/-- Matcher for the pattern `^html\s*\n?` (IGNORECASE | MULTILINE). -/
def mHtmlWord (atLS : Bool) (l : List Char) : Option (List Char) :=
  if atLS && startsWithCI htmlChars l then
    some ((l.drop 4).dropWhile isSpaceCh)
  else none

/-- Split a list at its last newline: `some (before, suffix)` with the
suffix starting at the last `'\n'`, or `none` if there is none. -/
def splitAtLastNl : List Char → Option (List Char × List Char)
  | [] => none
  | c :: r =>
    match splitAtLastNl r with
    | some (b, s) => some (c :: b, s)
    | none => if c = '\n' then some ([], c :: r) else none

/-- After the fence marker of an end-of-line fence pattern, consume `\s*`
greedily subject to the MULTILINE `$` anchor (end of string, or just
before a `'\n'`): returns the rest of the input after the match, or
`none` when the anchor cannot be satisfied. -/
def closeTail (afterTicks : List Char) : Option (List Char) :=
  let ws := afterTicks.takeWhile isSpaceCh
  let rest := afterTicks.dropWhile isSpaceCh
  if rest.isEmpty then some []
  else
    match splitAtLastNl ws with
    | some (_, s) => some (s ++ rest)
    | none => none

/-- Matcher for the pattern `\n?\x60\x60\x60\s*$` (MULTILINE). -/
def mFenceEnd (_ : Bool) (l : List Char) : Option (List Char) :=
  match l with
  | [] => none
  | c :: r =>
    if c = '\n' && startsWithL fence3 r then closeTail (r.drop 3)
    else if startsWithL fence3 (c :: r) then closeTail ((c :: r).drop 3)
    else none

/-- Matcher for the pattern `\x60\x60\x60\s*$` (MULTILINE). -/
def mFenceEnd2 (_ : Bool) (l : List Char) : Option (List Char) :=
  if startsWithL fence3 l then closeTail (l.drop 3) else none

/-- The `for pattern in patterns: cleaned = re.sub(pattern, '', cleaned, ...)`
loop shared by `FixedCodeCleaner.clean_html_response` and
`RobustCodeCleaner.clean_html_response` (their pattern lists are identical). -/
def fenceStrip (l : List Char) : List Char :=
  reSubAll mHtmlWord (reSubAll mFenceEnd2 (reSubAll mFenceEnd (reSubAll mFence (reSubAll mFenceHtml l))))

/-- The check `cleaned.upper().startswith('<!DOCTYPE')`. -/
def upperStartsDoctype (l : List Char) : Bool :=
  startsWithL "<!DOCTYPE".data (l.map upperCh)

/-- `re.search(r'<html[^>]*>', cleaned, re.IGNORECASE)`: returns the suffix
of the input starting at the first match, i.e. at the first position that
begins with `<html` (case-insensitively) and is followed by a `>` later in
the string. -/
def findHtmlStart : List Char → Option (List Char)
  | [] => none
  | c :: r =>
    if startsWithCI "<html".data (c :: r) && ((c :: r).drop 5).contains '>' then some (c :: r)
    else findHtmlStart r

/-- The DOCTYPE-repair step of `FixedCodeCleaner.clean_html_response`
(lines 37-48 of `fixed_code_cleaner.py`). -/
def doctypeStep (l : List Char) : List Char :=
  if upperStartsDoctype l then l
  else
    match findHtmlStart l with
    | some suffix => "<!DOCTYPE html>\n".data ++ suffix
    | none =>
      if containsSub "<head>".data (l.map lowerCh) || containsSub "<body>".data (l.map lowerCh) then
        "<!DOCTYPE html>\n<html lang=\"en\">\n".data ++ l ++ "\n</html>".data
      else l

/-- `FixedCodeCleaner._lenient_html_validation`: at least 2 of the 5
structural indicators must be present.  The caller only logs the result. -/
def lenient_html_validation (l : List Char) : Bool :=
  let low := l.map lowerCh
  let indicators := [containsSub "doctype".data low, containsSub "<html".data low,
    containsSub "<head".data low, containsSub "<body".data low, containsSub "<title".data low]
  decide (2 ≤ indicators.countP id)

/-- Keep a line iff `line.strip()` is non-empty. -/
def keepLine (ln : List Char) : Bool := !(pyStrip ln).isEmpty

/-- `FixedCodeCleaner._format_html`: drop blank-only lines, strip trailing
whitespace from the kept lines, rejoin with newlines. -/
def formatHtml (l : List Char) : List Char :=
  joinNl (((splitNl l).filter keepLine).map pyRStrip)

/-- The body of `FixedCodeCleaner.clean_html_response` on `List Char`.
The lenient-validation call only produces a log line in the source, so it
does not appear here; the `except` fallback (`_emergency_cleanup`) is
unreachable because none of these total string operations can raise. -/
def cleanCore (l : List Char) : List Char :=
  formatHtml (doctypeStep (pyStrip (fenceStrip (pyStrip l))))

/-- `FixedCodeCleaner.clean_html_response`. -/
def clean_html_response (s : String) : String :=
  String.mk (cleanCore s.data)

/-- ASCII letter test, the `[a-zA-Z]` character class. -/
def isLetterCh (c : Char) : Bool := ('a' ≤ c && c ≤ 'z') || ('A' ≤ c && c ≤ 'Z')

/-- Matcher for `\x60\x60\x60[a-zA-Z]*\s*\n?` (no anchors), used by
`_emergency_cleanup`. -/
def mEmergOpen (_ : Bool) (l : List Char) : Option (List Char) :=
  if startsWithL fence3 l then
    some (((l.drop 3).dropWhile isLetterCh).dropWhile isSpaceCh)
  else none

/-- Matcher for `\n?\x60\x60\x60\s*$` without MULTILINE: the anchor only
matches at the very end of the string (the end-of-string position is tried
first by the greedy `\s*`, and a `$` just before a trailing newline can
never be reached by backtracking here because `\s*` stops only at non-space
characters). -/
def mEmergClose (_ : Bool) (l : List Char) : Option (List Char) :=
  match l with
  | [] => none
  | c :: r =>
    if c = '\n' && startsWithL fence3 r then
      if ((r.drop 3).dropWhile isSpaceCh).isEmpty then some [] else none
    else if startsWithL fence3 (c :: r) then
      if (((c :: r).drop 3).dropWhile isSpaceCh).isEmpty then some [] else none
    else none

/-- The fixed document shell used by `_emergency_cleanup` and by
`RobustCodeCleaner` when wrapping incomplete HTML. -/
def htmlShellWrap (l : List Char) : List Char :=
  "<!DOCTYPE html>\n<html lang=\"en\">\n<head>\n    <meta charset=\"UTF-8\">\n    <meta name=\"viewport\" content=\"width=device-width, initial-scale=1.0\">\n    <title>Educational Game</title>\n</head>\n<body>\n".data
    ++ l ++ "\n</body>\n</html>".data

/-- `FixedCodeCleaner._emergency_cleanup` (the `except` path of the
sanitizer; unreachable in this embedding but kept for completeness). -/
def emergency_cleanup (l : List Char) : List Char :=
  let c1 := pyStrip l
  let c2 := reSubAll mEmergClose (reSubAll mEmergOpen c1)
  if ["<div", "<p>", "<h1", "<script", "<style"].any
      (fun t => containsSub t.data (c2.map lowerCh)) then
    if startsWithL "<!doctype".data (c2.map lowerCh) then c2 else htmlShellWrap c2
  else c2

/-- The DOCTYPE-repair step of `RobustCodeCleaner.clean_html_response`
(lines 42-58 of `robust_game_generator.py`): prepend a DOCTYPE when an
`<html` substring is present, else wrap in the full shell when one of the
four tag substrings is present. -/
def robustDoctypeStep (l : List Char) : List Char :=
  if startsWithL "<!DOCTYPE".data (l.map upperCh) then l
  else if containsSub "<html".data (l.map lowerCh) then "<!DOCTYPE html>\n".data ++ l
  else if ["<head>", "<body>", "<div>", "<script>"].any
      (fun t => containsSub t.data (l.map lowerCh)) then
    htmlShellWrap l
  else l

/-- `RobustCodeCleaner.clean_html_response` (same fence patterns, no
formatting pass). -/
def robust_clean_html_response (s : String) : String :=
  String.mk (robustDoctypeStep (pyStrip (fenceStrip (pyStrip s.data))))

/-! ## JSON values

Structured data passed between the analyzer, validator and drivers.
Numbers are modelled as `Int` (the integer case of `json.loads`). -/

inductive JValue where
  | jnull
  | jbool (b : Bool)
  | jnum (n : Int)
  | jstr (s : String)
  | jarr (xs : List JValue)
  | jobj (fields : List (String × JValue))

/-- Key lookup in an object's field list (first match). -/
def lookupField : List (String × JValue) → String → Option JValue
  | [], _ => none
  | (k', v) :: r, k => if k' = k then some v else lookupField r k

/-- Python subscript `d[k]` restricted to dicts; on every non-dict value the
Python code's subscript (or `in` test followed by subscript) raises, which the
source converts to a `False`/failure outcome, so `none` is faithful there. -/
def jLookup : JValue → String → Option JValue
  | .jobj fields, k => lookupField fields k
  | _, _ => none

/-- Python `dict.get(k, default)`. -/
def jGetD (v : JValue) (k : String) (d : JValue) : JValue := (jLookup v k).getD d

/-- Python `len(v)` for the values that support it; `none` where `len`
raises `TypeError`. -/
def pyLen : JValue → Option Nat
  | .jstr s => some s.length
  | .jarr xs => some xs.length
  | .jobj fs => some fs.length
  | _ => none

/-- Python truthiness of a JSON value. -/
def pyTruthy : JValue → Bool
  | .jnull => false
  | .jbool b => b
  | .jnum n => decide (n ≠ 0)
  | .jstr s => !s.isEmpty
  | .jarr xs => !xs.isEmpty
  | .jobj fs => !fs.isEmpty

/-- `AdaptiveContentAnalyzer._validate_analysis`
(`adaptive_game_generator.py` lines 125-147).  Any `TypeError` raised by a
comparison, subscript or `len` on an unexpectedly-shaped value is caught by
the surrounding `except` and becomes `False`. -/
def validate_analysis (d : JValue) : Bool :=
  match jLookup d "content_analysis", jLookup d "game_specifications" with
  | some ca, some gs =>
    match jLookup ca "optimal_game_count" with
    | some (.jnum n) =>
      if 3 ≤ n ∧ n ≤ 15 then
        match pyLen gs with
        | some len => decide ((len : Int) = n)
        | none => false
      else false
    | _ => false
  | _, _ => false

/-! ## The bounded-retry loops

One external call happens per attempt; the outcome of an attempt (the
`aask` call plus, for the analyzer, fence-stripping and `json.loads`) is
abstracted as an oracle indexed by the 0-based attempt number:
`exc` when any of those raised, `resp` with the parsed value otherwise. -/

def maxRetries : Nat := 3

inductive LLMOutcome where
  | exc
  | resp (d : JValue)

/-- Trace of a retry loop: number of attempts made (= external calls),
number of `asyncio.sleep(1)` delays performed, and the final outcome. -/
structure RetryTrace where
  attempts : Nat
  sleeps : Nat
  result : Except String JValue

/-- One pass of the `for attempt in range(max_retries)` loop of
`AdaptiveContentAnalyzer.run` (lines 84-106): a validation failure just
continues the loop (no sleep); an exception sleeps unless this was the
final attempt, which instead raises the terminal error naming the
attempt count; a loop that completes raises the count-less message. -/
def analyzerGo (o : Nat → LLMOutcome) : List Nat → Nat → Nat → RetryTrace
  | [], att, slp => ⟨att, slp, .error "All content analysis attempts failed"⟩
  | i :: rest, att, slp =>
    match o i with
    | .resp d =>
      if validate_analysis d then ⟨att + 1, slp, .ok d⟩
      else analyzerGo o rest (att + 1) slp
    | .exc =>
      if i = maxRetries - 1 then
        ⟨att + 1, slp, .error "Failed to analyze content after 3 attempts"⟩
      else analyzerGo o rest (att + 1) (slp + 1)

/-- `AdaptiveContentAnalyzer.run` as a function of the per-attempt oracle. -/
def analyzerRun (o : Nat → LLMOutcome) : RetryTrace :=
  analyzerGo o [0, 1, 2] 0 0

inductive GenOutcome where
  | exc
  | resp (s : String)

/-- Trace of the game-generation retry loop. -/
structure GenTrace where
  attempts : Nat
  sleeps : Nat
  result : Except String String

/-- The `for attempt in range(max_retries)` loop of
`EnhancedGameGenerator.run` (`adaptive_game_generator.py` lines 210-239).
On a short raw response in the final attempt the source executes
`return self._create_enhanced_fallback(game_spec)`, but no method of that
name exists anywhere in the repository, so an `AttributeError` is raised,
caught by the `except` handler, and converted into the terminal retry
error.  A cleaned result shorter than 200 characters only re-runs the loop
on non-final attempts; on the final attempt it is returned as a success. -/
def genGo (o : Nat → GenOutcome) : List Nat → Nat → Nat → GenTrace
  | [], att, slp => ⟨att, slp, .error "All game generation attempts failed"⟩
  | i :: rest, att, slp =>
    match o i with
    | .exc =>
      if i = maxRetries - 1 then
        ⟨att + 1, slp, .error "Failed to generate game after 3 attempts"⟩
      else genGo o rest (att + 1) (slp + 1)
    | .resp s =>
      if s.isEmpty || decide ((pyStrip s.data).length < 100) then
        if i < maxRetries - 1 then genGo o rest (att + 1) slp
        else ⟨att + 1, slp, .error "Failed to generate game after 3 attempts"⟩
      else
        let cleaned := clean_html_response s
        if decide (cleaned.length < 200) && decide (i < maxRetries - 1) then
          genGo o rest (att + 1) slp
        else ⟨att + 1, slp, .ok cleaned⟩

/-- `EnhancedGameGenerator.run` as a function of the per-attempt oracle. -/
def genRun (o : Nat → GenOutcome) : GenTrace := genGo o [0, 1, 2] 0 0

/-! ## Filenames -/

/-- The decimal digit character for `n % 10`. -/
def digitCh (n : Nat) : Char := Char.ofNat (48 + n % 10)

/-- Decimal digits of a natural number (fuel-driven; `fuel ≥ n` suffices
because the argument at least halves every step). -/
def natDigits : Nat → Nat → List Char
  | 0, _ => []
  | fuel + 1, n => if n < 10 then [digitCh n] else natDigits fuel (n / 10) ++ [digitCh (n % 10)]

/-- Python `str(n)` for a natural number. -/
def natToStr (n : Nat) : String := String.mk (natDigits (n + 1) n)

/-- Python `f"{n:02d}"` for a natural number. -/
def pad2 (n : Nat) : List Char :=
  if n < 10 then '0' :: natDigits (n + 1) n else natDigits (n + 1) n

/-- Python `f"{n:02d}"` for a possibly negative integer (the sign counts
toward the width, so nothing is ever padded for negative inputs here). -/
def pad2Int (n : Int) : List Char :=
  if n < 0 then '-' :: natDigits ((-n).toNat + 1) (-n).toNat else pad2 n.toNat

/-- The character class kept by the title sanitization comprehension
`c.isalnum() or c in (' ', '-', '_')`. -/
def allowedTitleCh (c : Char) : Bool := isAlnumCh c || c = ' ' || c = '-' || c = '_'

/-- `safe_title.replace(' ', '_')` character map. -/
def spaceToUnderscore (c : Char) : Char := if c = ' ' then '_' else c

/-- `safe_title = "".join(c for c in title if c.isalnum() or c in (' ', '-', '_')).strip()`. -/
def safeTitleOf (title : String) : List Char := pyStrip (title.data.filter allowedTitleCh)

/-- `filename = f"game_{i:02d}_{safe_title.replace(' ', '_')}.html"`
(`adaptive_game_generator.py` lines 291-293, `robust_game_generator.py`
lines 188-190). -/
def mkFilename (i : Nat) (title : String) : String :=
  String.mk ("game_".data ++ pad2 i ++ "_".data ++ (safeTitleOf title).map spaceToUnderscore
    ++ ".html".data)

/-- Integer-numbered variant used by the multi-agent save step, whose
sequence number comes from JSON data. -/
def mkFilenameInt (n : Int) (title : String) : String :=
  String.mk ("game_".data ++ pad2Int n ++ "_".data ++ (safeTitleOf title).map spaceToUnderscore
    ++ ".html".data)

/-- Stated from the spec's words for comparison with `mkFilename`
(claim C9): the title with every character outside the allowed class
removed and spaces converted to underscores — without the `.strip()`
the code performs. -/
def specSlug (title : String) : List Char :=
  (title.data.filter allowedTitleCh).map spaceToUnderscore

/-- The filename the claim's wording predicts. -/
def specFilename (i : Nat) (title : String) : String :=
  String.mk ("game_".data ++ pad2 i ++ "_".data ++ specSlug title ++ ".html".data)

/-- The claim's slug amended by the trimming the code performs. -/
def specSlugTrimmed (title : String) : List Char :=
  (pyStrip (title.data.filter allowedTitleCh)).map spaceToUnderscore

/-! ## The adaptive pipeline driver -/

/-- Decimal digit test. -/
def isDigitCh (c : Char) : Bool := '0' ≤ c && c ≤ '9'

/-- Value of the digit string remaining after an accepted first digit:
Python's `int()` grammar allows a single underscore between digits. -/
def digitsGo : Nat → List Char → Option Nat
  | acc, [] => some acc
  | acc, c :: r =>
    if isDigitCh c then digitsGo (acc * 10 + (c.toNat - 48)) r
    else if c = '_' then
      match r with
      | d :: r' => if isDigitCh d then digitsGo (acc * 10 + (d.toNat - 48)) r' else none
      | [] => none
    else none

/-- Python `int(tok)` for a whitespace-free token (ASCII digits): optional
sign, then digits with optional single underscores between them; `none`
where `int` raises `ValueError`. -/
def parseIntTok (l : List Char) : Option Int :=
  match l with
  | '-' :: c :: r =>
    if isDigitCh c then (digitsGo (c.toNat - 48) r).map (fun n => -(n : Int)) else none
  | '+' :: c :: r =>
    if isDigitCh c then (digitsGo (c.toNat - 48) r).map (fun n => (n : Int)) else none
  | c :: r =>
    if isDigitCh c then (digitsGo (c.toNat - 48) r).map (fun n => (n : Int)) else none
  | [] => none

/-- Python `str.split()` with no separator: whitespace-delimited tokens,
no empty tokens (fuel-driven; the fuel `l.length` suffices because every
step drops at least one character). -/
def pySplitWsAux : Nat → List Char → List (List Char)
  | 0, _ => []
  | _ + 1, [] => []
  | fuel + 1, c :: r =>
    if isSpaceCh c then pySplitWsAux fuel r
    else ((c :: r).takeWhile (fun x => !isSpaceCh x)) ::
      pySplitWsAux fuel ((c :: r).dropWhile (fun x => !isSpaceCh x))

/-- Python `str.split()`. -/
def pySplitWs (l : List Char) : List (List Char) := pySplitWsAux l.length l

/-- `int(est.split()[0])` applied to a stored estimated-time value
(`adaptive_game_generator.py` line 331): `none` where the Python raises —
a non-string value (`AttributeError` on `.split`), an all-whitespace
string (`IndexError` on `[0]`), or a non-integer first token
(`ValueError`). -/
def estMinutes (v : JValue) : Option Int :=
  match v with
  | .jstr s =>
    match pySplitWs s.data with
    | [] => none
    | tok :: _ => parseIntTok tok
  | _ => none

/-- Is the value a JSON string? -/
def isJStr : JValue → Bool
  | .jstr _ => true
  | _ => false

/-- One successful game as accumulated by the driver, with the stored
fields the index builder later reads back
(`successful_games.append({...})`, lines 299-308). -/
structure GameEntry where
  number : Nat
  title : String
  filename : String
  html : String
  est : JValue
  difficulty : JValue

/-- Is the generation-oracle outcome a success? -/
def synthOk : Except Unit String → Bool
  | .ok _ => true
  | .error _ => false

/-- Specification records the whole run can digest: a dict whose `title`,
if present, is a string (else the filename construction raises inside the
per-game `try`), whose stored estimated time — the spec's
`estimated_time` or the default `"3 minutes"` — survives
`int(est.split()[0])` in the index builder, and whose stored difficulty —
the spec's `difficulty` or the default `"Medium"` — is a string for
`difficulty.lower()` there. -/
def specOK (spec : JValue) : Bool :=
  match spec with
  | .jobj _ =>
    (match jLookup spec "title" with
     | some (.jstr _) => true
     | none => true
     | some _ => false) &&
    (estMinutes (jGetD spec "estimated_time" (.jstr "3 minutes"))).isSome &&
    isJStr (jGetD spec "difficulty" (.jstr "Medium"))
  | _ => false

/-- The `for i, game_spec in enumerate(analysis['game_specifications'], 1)`
loop (`adaptive_game_generator.py` lines 284-313).  Per-game: the
generator runs first (inside `try`), then the title is fetched, the file
written and the record appended (with the `.get` defaults for
`estimated_time` and `difficulty`); any exception inside the `try` is
logged and the loop continues.  A non-dict spec makes the pre-`try` log
line's `.get` raise `AttributeError`, which escapes to the run-level
handler: the run aborts (second component `true`). -/
def adaptiveLoop (synth : Nat → Except Unit String) : List JValue → Nat → List GameEntry × Bool
  | [], _ => ([], false)
  | spec :: rest, i =>
    match spec with
    | .jobj _ =>
      match synth i with
      | .ok html =>
        match jLookup spec "title" with
        | some (.jstr t) =>
          let r := adaptiveLoop synth rest (i + 1)
          (⟨i, t, mkFilename i t, html, jGetD spec "estimated_time" (.jstr "3 minutes"),
            jGetD spec "difficulty" (.jstr "Medium")⟩ :: r.1, r.2)
        | none =>
          let t := "Game " ++ natToStr i
          let r := adaptiveLoop synth rest (i + 1)
          (⟨i, t, mkFilename i t, html, jGetD spec "estimated_time" (.jstr "3 minutes"),
            jGetD spec "difficulty" (.jstr "Medium")⟩ :: r.1, r.2)
        | some _ => adaptiveLoop synth rest (i + 1)
      | .error _ => adaptiveLoop synth rest (i + 1)
    | _ => ([], true)

/-- `total_time = sum(int(game.get('estimated_time', '3').split()[0]) for
game in games)` (line 331); the stored record always carries the key, so
the `'3'` default never fires.  `none` when any addend raises. -/
def totalTime : List GameEntry → Option Int
  | [] => some 0
  | g :: rest =>
    match estMinutes g.est, totalTime rest with
    | some m, some t => some (m + t)
    | _, _ => none

/-- `AdaptiveGameSystem._create_enhanced_index` (lines 328-568): computes
the total time from each game's stored estimated time, interpolates the
unvalidated `total_concepts` (line 508), `reasoning` (line 517) and
`complexity_breakdown` `simple`/`medium`/`complex` (lines 520-522)
sub-keys of the content analysis, and lowercases each game's stored
difficulty (line 529).  Any of these raising — missing key, non-dict
breakdown, unparseable time, non-string difficulty — escapes to the
run-level handler: `none`, and neither index nor report is written.  On
success the index references exactly the successful games' filenames. -/
def create_enhanced_index (games : List GameEntry) (d : JValue) : Option (List String) :=
  match totalTime games with
  | none => none
  | some _ =>
    match (jLookup d "content_analysis").bind (fun ca => jLookup ca "total_concepts"),
        (jLookup d "content_analysis").bind (fun ca => jLookup ca "reasoning"),
        (jLookup d "content_analysis").bind (fun ca => jLookup ca "complexity_breakdown") with
    | some _, some _, some cb =>
      match jLookup cb "simple", jLookup cb "medium", jLookup cb "complex" with
      | some _, some _, some _ =>
        if games.all (fun g => isJStr g.difficulty) then some (games.map (·.filename))
        else none
      | _, _, _ => none
    | _, _, _ => none

/-- Observable outcome of one `generate_adaptive_games` run. -/
structure AdaptiveRun where
  rejectedShort : Bool
  analyzerCalls : Nat
  criticalAbort : Bool
  games : List GameEntry
  indexRefs : Option (List String)
  reportGames : Option (List GameEntry)

/-- `AdaptiveGameSystem.generate_adaptive_games`
(`adaptive_game_generator.py` lines 250-326) as a function of the
analyzer and generator oracles.  Content shorter than 50 characters after
`strip()` returns before any external call.  An analyzer failure is caught
by the run-level handler (critical abort, nothing persisted).  Line 272
then subscripts `analysis['content_analysis']['estimated_learning_time']`,
a key validation never checks: a missing key raises `KeyError` into the
run-level handler before any game is generated.  The validated analysis is
iterated as a JSON array (`game_specifications` of any other shape is
modelled as the empty iteration).  After the loop, `_create_enhanced_index`
may itself raise (see `create_enhanced_index`), aborting with the loop's
files already on disk but no index and no report; `_save_analysis_report`
runs after the index and touches only validated keys (and divides by the
validated non-zero game count), so the report is written exactly when the
index is. -/
def generate_adaptive_games (o : Nat → LLMOutcome) (synth : Nat → Except Unit String)
    (content : String) : AdaptiveRun :=
  if (pyStrip content.data).length < 50 then
    ⟨true, 0, false, [], none, none⟩
  else
    let t := analyzerRun o
    match t.result with
    | .error _ => ⟨false, t.attempts, true, [], none, none⟩
    | .ok d =>
      match (jLookup d "content_analysis").bind (fun ca => jLookup ca "estimated_learning_time") with
      | none => ⟨false, t.attempts, true, [], none, none⟩
      | some _ =>
        let specs := match jLookup d "game_specifications" with
          | some (.jarr xs) => xs
          | _ => []
        let r := adaptiveLoop synth specs 1
        if r.2 then ⟨false, t.attempts, true, r.1, none, none⟩
        else
          match create_enhanced_index r.1 d with
          | none => ⟨false, t.attempts, true, r.1, none, none⟩
          | some refs => ⟨false, t.attempts, false, r.1, some refs, some r.1⟩

/-! ## The multi-agent variant: JSON extraction and the save step -/

/-- Left brace character. -/
def braceL : Char := Char.ofNat 123

/-- Right brace character. -/
def braceR : Char := Char.ofNat 125

/-- Lazy closing search for the fenced-JSON pattern: starting after the
greedy `\s*`, find the least number of captured characters after which
`\n?` followed by a closing fence matches. -/
def findCloseJson : List Char → Option (List Char)
  | [] => none
  | c :: r =>
    if c = '\n' && startsWithL fence3 r then some []
    else if startsWithL fence3 (c :: r) then some []
    else (findCloseJson r).map (c :: ·)

/-- `re.search(r"\x60\x60\x60json\s*\n?(.*?)\n?\x60\x60\x60", rsp,
re.DOTALL | re.IGNORECASE)`: the captured group of the leftmost match. -/
def searchJsonFence : List Char → Option (List Char)
  | [] => none
  | c :: r =>
    match (if startsWithCI "```json".data (c :: r) then
            findCloseJson (((c :: r).drop 7).dropWhile isSpaceCh)
          else none) with
    | some cap => some cap
    | none => searchJsonFence r

/-- Lazy scan to the first closing brace, inclusive. -/
def upToBrace : List Char → Option (List Char)
  | [] => none
  | c :: r => if c = braceR then some [c] else (upToBrace r).map (c :: ·)

/-- `re.search(r"\{.*?\}", rsp, re.DOTALL)`: the whole leftmost match. -/
def searchBrace : List Char → Option (List Char)
  | [] => none
  | c :: r =>
    if c = braceL then
      match upToBrace r with
      | some cap => some (c :: cap)
      | none => searchBrace r
    else searchBrace r

/-- The extraction phase of `parse_json_response`
(`multi_agent_game_system.py` lines 21-33): fenced JSON block first, then
the first braced region, else the whole response. -/
def extractJsonText (rsp : String) : String :=
  match searchJsonFence rsp.data with
  | some cap => String.mk cap
  | none =>
    match searchBrace rsp.data with
    | some cap => String.mk cap
    | none => rsp

/-- `parse_json_response` (lines 21-38), with `json.loads` abstracted as
the `loads` oracle (`none` = `JSONDecodeError`): on a parse failure the
fallback object with the `error` and `raw_response` fields — and no
`passes_validation` field — is returned. -/
def parse_json_response (loads : String → Option JValue) (rsp : String) : JValue :=
  match loads (extractJsonText rsp) with
  | some v => v
  | none => .jobj [("error", .jstr "Failed to parse JSON"), ("raw_response", .jstr rsp)]

/-- One element of the results list consumed by
`MultiAgentGameSystem._save_games`, after the two `result.get(...)`
extractions. -/
structure SaveRec where
  game_data : JValue
  validation : JValue

/-- Python `str(n)` for an integer. -/
def intToStr (n : Int) : String :=
  if n < 0 then "-" ++ natToStr (-n).toNat else natToStr n.toNat

/-- The title/sequence/html extraction and filename construction of
`_save_games` lines 411-417; `none` where the Python raises (`TypeError`
on a non-string title or html, or formatting a non-integer number), which
aborts the whole save loop. -/
def fileOf (r : SaveRec) : Option (String × String) :=
  match r.game_data with
  | .jobj _ =>
    match (match jLookup r.game_data "game_number" with
           | some (.jnum n) => some n
           | none => some 1
           | some _ => none) with
    | none => none
    | some num =>
      match (match jLookup r.game_data "title" with
             | some (.jstr t) => some t
             | none => some ("Game " ++ intToStr num)
             | some _ => none) with
      | none => none
      | some t =>
        match (match jLookup r.game_data "html" with
               | some (.jstr h) => some h
               | none => some ""
               | some _ => none) with
        | none => none
        | some html => some (mkFilenameInt num t, html)
  | _ => none

/-- Observable outcome of `_save_games`: the files written (in order) and
the filenames the index references, `none` when the loop aborted (the
outer handler fires before `_create_index` runs). -/
structure SaveOutcome where
  written : List (String × String)
  indexRefs : Option (List String)

/-- `MultiAgentGameSystem._save_games` (lines 397-431): a game is saved
and indexed iff `validation.get("passes_validation", True)` is truthy —
so a validation object lacking the field passes by default.  Files
written before an abort stay written; the index is only created when the
loop completes. -/
def save_games : List SaveRec → SaveOutcome
  | [] => ⟨[], some []⟩
  | r :: rest =>
    match r.validation with
    | .jobj _ =>
      if pyTruthy (jGetD r.validation "passes_validation" (.jbool true)) then
        match fileOf r with
        | none => ⟨[], none⟩
        | some fh =>
          let o := save_games rest
          ⟨fh :: o.written, o.indexRefs.map (fh.1 :: ·)⟩
      else save_games rest
    | _ => ⟨[], none⟩

/-! ## Support definitions for the statements below -/

/-- Did this attempt's external call (or parse) raise? -/
def isExcAt (o : Nat → LLMOutcome) (i : Nat) : Bool :=
  match o i with
  | .exc => true
  | .resp _ => false

/-- The analyzer attempt's success criterion fails: either the call/parse
raised, or the parsed value fails validation. -/
def attemptFails : LLMOutcome → Bool
  | .exc => true
  | .resp d => !validate_analysis d

/-- Error payload of an `Except`, if any. -/
def exceptErr {ε α : Type} : Except ε α → Option ε
  | .error e => some e
  | .ok _ => none

/-- Success payload of an `Except`, if any. -/
def exceptOkVal {ε α : Type} : Except ε α → Option α
  | .ok a => some a
  | .error _ => none

/-- A line-start scan: no line of the text begins (at a MULTILINE `^`
position) with the letters `html`, case-insensitively. -/
def noHtmlAtLS : Bool → List Char → Bool
  | _, [] => true
  | b, c :: r => !(b && startsWithCI htmlChars (c :: r)) && noHtmlAtLS (c = '\n') r

/-- A save record the loop body can process without raising: validation is
a dict, and if the record passes validation its file data is extractable. -/
def saveRecNoAbort (x : SaveRec) : Bool :=
  match x.validation with
  | .jobj _ =>
    if pyTruthy (jGetD x.validation "passes_validation" (.jbool true)) then (fileOf x).isSome
    else true
  | _ => false

/-- Concrete content with only two non-whitespace characters but a large
stripped length (the interior whitespace survives `strip()`). -/
def c8Content : String := "a" ++ String.mk (List.replicate 58 ' ') ++ "b"

/-- A 60-character content string above the length gate. -/
def c7Content : String := String.mk (List.replicate 60 'x')

/-- The complexity-breakdown object of the witness analysis. -/
def c7CB : JValue :=
  .jobj [("simple", .jnum 1), ("medium", .jnum 1), ("complex", .jnum 1)]

/-- The content-analysis section of the witness analysis, carrying the
unvalidated keys the success path reads (`estimated_learning_time`,
`total_concepts`, `reasoning`, `complexity_breakdown`). -/
def c7CA : JValue :=
  .jobj [("optimal_game_count", .jnum 3),
         ("estimated_learning_time", .jstr "10 minutes"),
         ("total_concepts", .jnum 3),
         ("reasoning", .jstr "three distinct concepts"),
         ("complexity_breakdown", c7CB)]

/-- A validated three-game analysis value. -/
def c7Valid : JValue :=
  .jobj [("content_analysis", c7CA),
         ("game_specifications", .jarr [.jobj [("title", .jstr "A")],
            .jobj [("title", .jstr "B")], .jobj [("title", .jstr "C")]])]

/-- The specification list inside `c7Valid`. -/
def c7Specs : List JValue :=
  [.jobj [("title", .jstr "A")], .jobj [("title", .jstr "B")], .jobj [("title", .jstr "C")]]

/-- A generation oracle that fails deterministically on game 2 only. -/
def c7Synth : Nat → Except Unit String :=
  fun i => if i = 2 then .error () else .ok "<p>game</p>"

/-- A save record whose validation is the parse-fallback object. -/
def c10Rec : SaveRec :=
  ⟨.jobj [("game_number", .jnum 2), ("title", .jstr "T"), ("html", .jstr "<p>x</p>")],
   parse_json_response (fun _ => none) "not json at all"⟩

/-! # Theorems -/

/-- Claim C1, counterexample: the input consisting of a bare markdown
fence is non-empty, yet the sanitizer returns the empty string (the fence
is stripped and nothing remains), refuting the guarantee that a non-empty
input never yields an empty result. -/
theorem c1_counterexample :
    ("```" : String) ≠ "" ∧ clean_html_response "```" = "" := by
  exact ⟨by decide, by decide⟩

/-- Claim C4, counterexample: the sanitizer is not idempotent.  On
`"htmlhtml x"` the first pass strips one line-initial `html` marker and
leaves another at the start of a line, which the second pass then strips
as well. -/
theorem c4_counterexample :
    clean_html_response (clean_html_response "htmlhtml x") ≠ clean_html_response "htmlhtml x" ∧
    clean_html_response "htmlhtml x" = "html x" ∧
    clean_html_response (clean_html_response "htmlhtml x") = "x" := by
  refine ⟨?_, by decide, by decide⟩
  decide

/-- Claim C5 (confirmed): on `"<body><h1>Hi</h1></body>"` both sanitizers
emit a document starting with a DOCTYPE declaration containing exactly one
`<html` opening tag and one `</html>` closing tag, with the original body
content enclosed unchanged. -/
theorem c5_wrap_body :
    clean_html_response "<body><h1>Hi</h1></body>" =
      "<!DOCTYPE html>\n<html lang=\"en\">\n<body><h1>Hi</h1></body>\n</html>" ∧
    startsWithL "<!DOCTYPE".data (clean_html_response "<body><h1>Hi</h1></body>").data = true ∧
    countSub "<html".data (clean_html_response "<body><h1>Hi</h1></body>").data = 1 ∧
    countSub "</html>".data (clean_html_response "<body><h1>Hi</h1></body>").data = 1 ∧
    containsSub "<body><h1>Hi</h1></body>".data
      (clean_html_response "<body><h1>Hi</h1></body>").data = true ∧
    robust_clean_html_response "<body><h1>Hi</h1></body>" =
      String.mk (htmlShellWrap "<body><h1>Hi</h1></body>".data) ∧
    startsWithL "<!DOCTYPE".data (robust_clean_html_response "<body><h1>Hi</h1></body>").data = true ∧
    countSub "<html".data (robust_clean_html_response "<body><h1>Hi</h1></body>").data = 1 ∧
    countSub "</html>".data (robust_clean_html_response "<body><h1>Hi</h1></body>").data = 1 ∧
    containsSub "<body><h1>Hi</h1></body>".data
      (robust_clean_html_response "<body><h1>Hi</h1></body>").data = true := by
  decide

/-- Claim C3, counterexample: when every attempt returns a value that
merely fails validation (no exception), the invoker does make exactly 3
attempts, but performs no inter-attempt delay at all (the `sleep` sits in
the exception handler only), and the terminal message is the count-less
`"All content analysis attempts failed"`. -/
theorem c3_counterexample :
    (analyzerRun (fun _ => LLMOutcome.resp .jnull)).attempts = 3 ∧
    (analyzerRun (fun _ => LLMOutcome.resp .jnull)).sleeps = 0 ∧
    (analyzerRun (fun _ => LLMOutcome.resp .jnull)).sleeps ≠ 2 ∧
    exceptErr (analyzerRun (fun _ => LLMOutcome.resp .jnull)).result =
      some "All content analysis attempts failed" ∧
    containsSub "3".data "All content analysis attempts failed".data = false := by
  decide

/-- Claim C3, amended: on an always-failing call the invoker performs
exactly 3 attempts and fails terminally; the 1-second delay is performed
after a non-final attempt exactly when that attempt raised (not when it
merely failed validation), and the terminal message names the attempt
count exactly when the final attempt raised. -/
theorem c3_retry_amended (o : Nat → LLMOutcome)
    (h : ∀ i, i < 3 → attemptFails (o i) = true) :
    (analyzerRun o).attempts = 3 ∧
    (analyzerRun o).sleeps =
      ((if isExcAt o 0 then 1 else 0) + (if isExcAt o 1 then 1 else 0)) ∧
    (analyzerRun o).result = .error (if isExcAt o 2 then
      "Failed to analyze content after 3 attempts" else "All content analysis attempts failed") := by
  have h0 := h 0 (by norm_num)
  have h1 := h 1 (by norm_num)
  have h2 := h 2 (by norm_num)
  rcases e0 : o 0 with _ | d0 <;> rcases e1 : o 1 with _ | d1 <;>
    rcases e2 : o 2 with _ | d2 <;>
    rw [e0] at h0 <;> rw [e1] at h1 <;> rw [e2] at h2 <;>
    simp only [attemptFails, Bool.not_eq_true'] at h0 h1 h2 <;>
    simp [analyzerRun, analyzerGo, maxRetries, isExcAt, e0, e1, e2, h0, h1, h2]

/-- Claim C3, witness for the amended theorem at the oracle that raises on
every attempt: 3 attempts, 2 sleeps, terminal error naming the count. -/
theorem c3_retry_witness :
    (∀ i, i < 3 → attemptFails ((fun _ => LLMOutcome.exc) i) = true) ∧
    ((analyzerRun (fun _ => LLMOutcome.exc)).attempts = 3 ∧
     (analyzerRun (fun _ => LLMOutcome.exc)).sleeps =
       ((if isExcAt (fun _ => LLMOutcome.exc) 0 then 1 else 0) +
        (if isExcAt (fun _ => LLMOutcome.exc) 1 then 1 else 0)) ∧
     (analyzerRun (fun _ => LLMOutcome.exc)).result = .error (if isExcAt (fun _ => LLMOutcome.exc) 2 then
       "Failed to analyze content after 3 attempts" else "All content analysis attempts failed")) :=
  ⟨by decide, c3_retry_amended (fun _ => LLMOutcome.exc) (by decide)⟩

/-- Claim C6 (code bug): with every attempt returning a short response the
generator's final attempt executes `return self._create_enhanced_fallback(game_spec)`,
a method that exists nowhere in the repository; the resulting
`AttributeError` is converted into the terminal retry error instead of the
documented deterministic fallback document.  Additionally, a final attempt
whose sanitized result is shorter than 200 characters is returned as a
success, so the length-200 criterion is not enforced on the last attempt. -/
theorem c6_missing_fallback_behavior :
    (genRun (fun _ => GenOutcome.resp "short")).attempts = 3 ∧
    (genRun (fun _ => GenOutcome.resp "short")).sleeps = 0 ∧
    exceptErr (genRun (fun _ => GenOutcome.resp "short")).result =
      some "Failed to generate game after 3 attempts" ∧
    exceptOkVal (genRun (fun _ => GenOutcome.resp "short")).result = none ∧
    exceptOkVal (genRun (fun _ => GenOutcome.resp (String.mk (List.replicate 120 'a')))).result =
      some (String.mk (List.replicate 120 'a')) ∧
    (String.mk (List.replicate 120 'a')).length < 200 := by
  decide

/-- Claim C8, counterexample: this 60-character content has only two
non-whitespace characters, yet it is not rejected — `len(content.strip())`
counts the interior whitespace — and the analyzer is invoked (3 external
call attempts are made). -/
theorem c8_counterexample :
    (c8Content.data.filter (fun c => !isSpaceCh c)).length = 2 ∧
    (generate_adaptive_games (fun _ => LLMOutcome.exc) (fun _ => Except.error ()) c8Content).rejectedShort
      = false ∧
    (generate_adaptive_games (fun _ => LLMOutcome.exc) (fun _ => Except.error ()) c8Content).analyzerCalls
      = 3 := by
  decide

/-- Claim C8, amended: content whose `strip()`-trimmed length is below 50
is rejected before any external call; the rejection is not retried and the
run produces no games, no index and no report. -/
theorem c8_short_input_amended (o : Nat → LLMOutcome) (synth : Nat → Except Unit String)
    (content : String) (h : (pyStrip content.data).length < 50) :
    generate_adaptive_games o synth content =
      { rejectedShort := true, analyzerCalls := 0, criticalAbort := false, games := [],
        indexRefs := none, reportGames := none } := by
  unfold generate_adaptive_games
  rw [if_pos h]

/-- Claim C8, witness for the amended theorem on the two-character
content `"hi"`. -/
theorem c8_short_input_witness :
    (pyStrip ("hi" : String).data).length < 50 ∧
    generate_adaptive_games (fun _ => LLMOutcome.exc) (fun _ => Except.error ()) "hi" =
      { rejectedShort := true, analyzerCalls := 0, criticalAbort := false, games := [],
        indexRefs := none, reportGames := none } :=
  ⟨by decide, c8_short_input_amended (fun _ => LLMOutcome.exc) (fun _ => Except.error ()) "hi"
    (by decide)⟩

/-- Claim C9, counterexample: the code trims the filtered title before
replacing spaces, so the title `" A"` yields `game_01_A.html`, not the
`game_01__A.html` predicted by the claim's description of the mapping. -/
theorem c9_counterexample :
    mkFilename 1 " A" = "game_01_A.html" ∧
    specFilename 1 " A" = "game_01__A.html" ∧
    mkFilename 1 " A" ≠ specFilename 1 " A" := by
  refine ⟨by decide, by decide, ?_⟩
  decide

/-- Membership in a right-stripped list implies membership in the list. -/
theorem mem_pyRStrip {a : Char} {l : List Char} (h : a ∈ pyRStrip l) : a ∈ l := by
  unfold pyRStrip at h
  rw [List.mem_reverse] at h
  have hs := (List.dropWhile_suffix (l := l.reverse) isSpaceCh).sublist
  exact List.mem_reverse.mp (hs.mem h)

/-- Membership in a stripped list implies membership in the list. -/
theorem mem_pyStrip {a : Char} {l : List Char} (h : a ∈ pyStrip l) : a ∈ l := by
  unfold pyStrip at h
  have h1 := mem_pyRStrip h
  unfold pyLStrip at h1
  exact (List.dropWhile_suffix isSpaceCh).sublist.mem h1

/-- Claim C2 (confirmed): the analyzer validator accepts a structured
result exactly when the result carries both required sections, the
content-analysis section carries an integer `optimal_game_count` between
3 and 15, and the Python length of the game-specification sequence equals
that count. -/
theorem c2_validate_analysis_iff (d : JValue) :
    validate_analysis d = true ↔
      ∃ ca gs n len, jLookup d "content_analysis" = some ca ∧
        jLookup d "game_specifications" = some gs ∧
        jLookup ca "optimal_game_count" = some (.jnum n) ∧
        3 ≤ n ∧ n ≤ 15 ∧ pyLen gs = some len ∧ (len : Int) = n := by
  unfold validate_analysis
  rcases hca : jLookup d "content_analysis" with _ | ca
  · simp [hca]
  rcases hgs : jLookup d "game_specifications" with _ | gs
  · simp [hca, hgs]
  simp only [hca, hgs]
  rcases hoc : jLookup ca "optimal_game_count" with _ | v
  · simp [hoc]
  cases v with
  | jnull => simp [hoc]
  | jbool b => simp [hoc]
  | jstr s => simp [hoc]
  | jarr xs => simp [hoc]
  | jobj ofs => simp [hoc]
  | jnum n =>
    simp only [hoc]
    by_cases hb : 3 ≤ n ∧ n ≤ 15
    · rw [if_pos hb]
      rcases hlen : pyLen gs with _ | len
      · simp [hoc, hlen]
      · simp [hoc, hlen, hb.1, hb.2, decide_eq_true_eq]
    · rw [if_neg hb]
      simp only [Bool.false_eq_true, false_iff]
      rintro ⟨ca', gs', n', len, h1, h2, h3, h4, h5, -, -⟩
      obtain rfl : ca = ca' := by simpa using h1
      rw [hoc] at h3
      obtain rfl : n = n' := by simpa using h3
      exact hb ⟨h4, h5⟩

/-- Helper for claim C7: the per-game loop never sets the abort flag on
well-formed specifications, and the numbers of the accumulated games are
exactly the ascending positions at which the generation oracle succeeds. -/
theorem adaptiveLoop_numbers (synth : Nat → Except Unit String) :
    ∀ (specs : List JValue) (i : Nat), (∀ s ∈ specs, specOK s = true) →
      (adaptiveLoop synth specs i).2 = false ∧
      ((adaptiveLoop synth specs i).1).map (·.number) =
        (List.range' i specs.length).filter (fun n => synthOk (synth n)) := by
  intro specs
  induction specs with
  | nil => intro i _; simp [adaptiveLoop]
  | cons spec rest ih =>
    intro i hok
    have hhead := hok spec (by simp)
    have htail : ∀ s ∈ rest, specOK s = true := fun s hs => hok s (by simp [hs])
    obtain ⟨ih1, ih2⟩ := ih (i + 1) htail
    cases spec with
    | jnull => simp [specOK] at hhead
    | jbool b => simp [specOK] at hhead
    | jnum n => simp [specOK] at hhead
    | jstr s => simp [specOK] at hhead
    | jarr xs => simp [specOK] at hhead
    | jobj fs =>
      rcases ht : jLookup (.jobj fs) "title" with _ | v
      · rcases hs : synth i with e | html
        · simp only [adaptiveLoop, hs, ht, List.length_cons, List.range'_succ]
          rw [List.filter_cons_of_neg (by simp [synthOk, hs])]
          exact ⟨ih1, by simpa using ih2⟩
        · simp only [adaptiveLoop, hs, ht, List.length_cons, List.range'_succ]
          rw [List.filter_cons_of_pos (by simp [synthOk, hs])]
          refine ⟨ih1, ?_⟩
          simpa using ih2
      · cases v with
        | jnull => simp [specOK, ht] at hhead
        | jbool b => simp [specOK, ht] at hhead
        | jnum m => simp [specOK, ht] at hhead
        | jarr ys => simp [specOK, ht] at hhead
        | jobj gs => simp [specOK, ht] at hhead
        | jstr t =>
          rcases hs : synth i with e | html
          · simp only [adaptiveLoop, hs, ht, List.length_cons, List.range'_succ]
            rw [List.filter_cons_of_neg (by simp [synthOk, hs])]
            exact ⟨ih1, by simpa using ih2⟩
          · simp only [adaptiveLoop, hs, ht, List.length_cons, List.range'_succ]
            rw [List.filter_cons_of_pos (by simp [synthOk, hs])]
            refine ⟨ih1, ?_⟩
            simpa using ih2

/-- Helper for claim C7: every game the loop accumulates carries a
parseable stored estimated time and a string stored difficulty, given
well-formed specifications. -/
theorem adaptiveLoop_entries (synth : Nat → Except Unit String) :
    ∀ (specs : List JValue) (i : Nat), (∀ s ∈ specs, specOK s = true) →
      ∀ g ∈ (adaptiveLoop synth specs i).1,
        (estMinutes g.est).isSome = true ∧ isJStr g.difficulty = true := by
  intro specs
  induction specs with
  | nil => intro i _ g hg; simp [adaptiveLoop] at hg
  | cons spec rest ih =>
    intro i hok g hg
    have hhead := hok spec (by simp)
    have htail : ∀ s ∈ rest, specOK s = true := fun s hs => hok s (by simp [hs])
    cases spec with
    | jnull => simp [specOK] at hhead
    | jbool b => simp [specOK] at hhead
    | jnum n => simp [specOK] at hhead
    | jstr s => simp [specOK] at hhead
    | jarr xs => simp [specOK] at hhead
    | jobj fs =>
      unfold specOK at hhead
      rw [Bool.and_eq_true] at hhead
      obtain ⟨h1, hdiff⟩ := hhead
      rw [Bool.and_eq_true] at h1
      obtain ⟨-, hest⟩ := h1
      rcases hs : synth i with e | html
      · simp only [adaptiveLoop, hs] at hg
        exact ih (i + 1) htail g hg
      · rcases ht : jLookup (JValue.jobj fs) "title" with _ | v
        · simp only [adaptiveLoop, hs, ht] at hg
          rcases List.mem_cons.mp hg with rfl | hg'
          · exact ⟨hest, hdiff⟩
          · exact ih (i + 1) htail g hg'
        · cases v with
          | jstr t =>
            simp only [adaptiveLoop, hs, ht] at hg
            rcases List.mem_cons.mp hg with rfl | hg'
            · exact ⟨hest, hdiff⟩
            · exact ih (i + 1) htail g hg'
          | jnull =>
            simp only [adaptiveLoop, hs, ht] at hg
            exact ih (i + 1) htail g hg
          | jbool b =>
            simp only [adaptiveLoop, hs, ht] at hg
            exact ih (i + 1) htail g hg
          | jnum m =>
            simp only [adaptiveLoop, hs, ht] at hg
            exact ih (i + 1) htail g hg
          | jarr ys =>
            simp only [adaptiveLoop, hs, ht] at hg
            exact ih (i + 1) htail g hg
          | jobj gs =>
            simp only [adaptiveLoop, hs, ht] at hg
            exact ih (i + 1) htail g hg

/-- Helper for claim C7: the total-time sum raises on no addend when every
stored estimated time parses. -/
theorem totalTime_isSome :
    ∀ (games : List GameEntry), (∀ g ∈ games, (estMinutes g.est).isSome = true) →
      (totalTime games).isSome = true := by
  intro games
  induction games with
  | nil => intro _; rfl
  | cons g rest ih =>
    intro h
    obtain ⟨m, hm⟩ := Option.isSome_iff_exists.mp (h g (by simp))
    obtain ⟨t, htt⟩ := Option.isSome_iff_exists.mp (ih (fun x hx => h x (by simp [hx])))
    simp [totalTime, hm, htt]

/-- Helper for claim C7: the index builder succeeds and references exactly
the games' filenames when the content analysis carries the keys it
interpolates and every game's stored fields are digestible. -/
theorem create_enhanced_index_some (games : List GameEntry) {d ca cb : JValue}
    (hca : jLookup d "content_analysis" = some ca)
    (htc : (jLookup ca "total_concepts").isSome = true)
    (hre : (jLookup ca "reasoning").isSome = true)
    (hcb : jLookup ca "complexity_breakdown" = some cb)
    (hsi : (jLookup cb "simple").isSome = true)
    (hme : (jLookup cb "medium").isSome = true)
    (hco : (jLookup cb "complex").isSome = true)
    (hest : ∀ g ∈ games, (estMinutes g.est).isSome = true)
    (hdiff : ∀ g ∈ games, isJStr g.difficulty = true) :
    create_enhanced_index games d = some (games.map (·.filename)) := by
  obtain ⟨tt, htt⟩ := Option.isSome_iff_exists.mp (totalTime_isSome games hest)
  obtain ⟨tc, htc'⟩ := Option.isSome_iff_exists.mp htc
  obtain ⟨re, hre'⟩ := Option.isSome_iff_exists.mp hre
  obtain ⟨vs, hsi'⟩ := Option.isSome_iff_exists.mp hsi
  obtain ⟨vm, hme'⟩ := Option.isSome_iff_exists.mp hme
  obtain ⟨vx, hco'⟩ := Option.isSome_iff_exists.mp hco
  have hall : games.all (fun g => isJStr g.difficulty) = true := by
    rw [List.all_eq_true]
    exact hdiff
  unfold create_enhanced_index
  simp only [htt, hca, Option.some_bind, htc', hre', hcb, hsi', hme', hco', hall, if_true]

/-- Claim C7 (confirmed): when the analyzer produced a validated array of
well-formed specifications and the content analysis carries the
unvalidated keys the success path reads back (`estimated_learning_time`,
`total_concepts`, `reasoning`, the three `complexity_breakdown`
sub-keys), a per-game generation failure never aborts the run — the
driver continues through every specification in ascending order, the
successful games carry exactly the positions where generation succeeded,
and the index and report reference exactly those games. -/
theorem c7_partial_failure (o : Nat → LLMOutcome) (synth : Nat → Except Unit String)
    (content : String) (d ca cb : JValue) (specs : List JValue)
    (hlen : ¬ (pyStrip content.data).length < 50)
    (hres : (analyzerRun o).result = .ok d)
    (hca : jLookup d "content_analysis" = some ca)
    (hel : (jLookup ca "estimated_learning_time").isSome = true)
    (htc : (jLookup ca "total_concepts").isSome = true)
    (hre : (jLookup ca "reasoning").isSome = true)
    (hcb : jLookup ca "complexity_breakdown" = some cb)
    (hsi : (jLookup cb "simple").isSome = true)
    (hme : (jLookup cb "medium").isSome = true)
    (hco : (jLookup cb "complex").isSome = true)
    (hspecs : jLookup d "game_specifications" = some (.jarr specs))
    (hok : ∀ s ∈ specs, specOK s = true) :
    (generate_adaptive_games o synth content).criticalAbort = false ∧
    (generate_adaptive_games o synth content).games.map (·.number) =
      (List.range' 1 specs.length).filter (fun n => synthOk (synth n)) ∧
    (generate_adaptive_games o synth content).indexRefs =
      some ((generate_adaptive_games o synth content).games.map (·.filename)) ∧
    (generate_adaptive_games o synth content).reportGames =
      some (generate_adaptive_games o synth content).games := by
  obtain ⟨hab, hnum⟩ := adaptiveLoop_numbers synth specs 1 hok
  have hent := adaptiveLoop_entries synth specs 1 hok
  have hidx := create_enhanced_index_some (adaptiveLoop synth specs 1).1
    hca htc hre hcb hsi hme hco (fun g hg => (hent g hg).1) (fun g hg => (hent g hg).2)
  obtain ⟨elt, hel'⟩ := Option.isSome_iff_exists.mp hel
  unfold generate_adaptive_games
  rw [if_neg hlen]
  simp only [hres, hca, Option.some_bind, hel', hspecs, hab, Bool.false_eq_true, if_false, hidx]
  exact ⟨by trivial, hnum, by trivial, by trivial⟩

/-- Claim C7, witness: a run over three specifications in which game 2
fails deterministically, on an analysis that carries all the read-back
keys, yields games 1 and 3, and the index and report reference exactly
those. -/
theorem c7_partial_failure_witness :
    (¬ (pyStrip c7Content.data).length < 50) ∧
    ((analyzerRun (fun _ => LLMOutcome.resp c7Valid)).result = .ok c7Valid) ∧
    (jLookup c7Valid "content_analysis" = some c7CA) ∧
    ((jLookup c7CA "estimated_learning_time").isSome = true) ∧
    ((jLookup c7CA "total_concepts").isSome = true) ∧
    ((jLookup c7CA "reasoning").isSome = true) ∧
    (jLookup c7CA "complexity_breakdown" = some c7CB) ∧
    ((jLookup c7CB "simple").isSome = true) ∧
    ((jLookup c7CB "medium").isSome = true) ∧
    ((jLookup c7CB "complex").isSome = true) ∧
    (jLookup c7Valid "game_specifications" = some (.jarr c7Specs)) ∧
    (∀ s ∈ c7Specs, specOK s = true) ∧
    ((generate_adaptive_games (fun _ => LLMOutcome.resp c7Valid) c7Synth c7Content).criticalAbort
        = false ∧
      (generate_adaptive_games (fun _ => LLMOutcome.resp c7Valid) c7Synth c7Content).games.map
          (·.number) =
        (List.range' 1 c7Specs.length).filter (fun n => synthOk (c7Synth n)) ∧
      (generate_adaptive_games (fun _ => LLMOutcome.resp c7Valid) c7Synth c7Content).indexRefs =
        some ((generate_adaptive_games (fun _ => LLMOutcome.resp c7Valid) c7Synth c7Content).games.map
          (·.filename)) ∧
      (generate_adaptive_games (fun _ => LLMOutcome.resp c7Valid) c7Synth c7Content).reportGames =
        some (generate_adaptive_games (fun _ => LLMOutcome.resp c7Valid) c7Synth c7Content).games) :=
  ⟨by decide, rfl, rfl, rfl, rfl, rfl, rfl, rfl, rfl, rfl, rfl, by decide,
    c7_partial_failure (fun _ => LLMOutcome.resp c7Valid) c7Synth c7Content c7Valid c7CA c7CB
      c7Specs (by decide) rfl rfl rfl rfl rfl rfl rfl rfl rfl rfl (by decide)⟩

/-- Claim C9, amended: the persisted filename is the zero-padded sequence
prefix followed by the title with all disallowed characters removed, the
result trimmed of leading and trailing whitespace, and spaces converted to
underscores; only alphanumerics, hyphens and underscores survive in the
slug, as the concrete title `"Fractions: Part/Whole!"` illustrates. -/
theorem c9_filename_amended :
    (∀ (i : Nat) (title : String),
      mkFilename i title =
        String.mk ("game_".data ++ pad2 i ++ "_".data ++ specSlugTrimmed title ++ ".html".data)) ∧
    (∀ (title : String), ∀ c ∈ specSlugTrimmed title,
      (isAlnumCh c || c = '-' || c = '_') = true) ∧
    mkFilename 7 "Fractions: Part/Whole!" = "game_07_Fractions_PartWhole.html" ∧
    (∀ c ∈ ("game_07_Fractions_PartWhole.html" : String).data,
      (isAlnumCh c || c = '-' || c = '_' || c = '.') = true) := by
  refine ⟨fun i title => rfl, ?_, by decide, by decide⟩
  intro title c hc
  simp only [specSlugTrimmed, List.mem_map] at hc
  obtain ⟨b, hb, rfl⟩ := hc
  have hall : allowedTitleCh b = true := (List.mem_filter.mp (mem_pyStrip hb)).2
  by_cases hsp : b = ' '
  · subst hsp; simp [spaceToUnderscore]
  · have hid : spaceToUnderscore b = b := by simp [spaceToUnderscore, hsp]
    rw [hid]
    simp only [allowedTitleCh, Bool.or_eq_true, decide_eq_true_eq] at hall
    rcases hall with ((h | h) | h) | h
    · simp [h]
    · exact absurd h hsp
    · simp [h]
    · simp [h]

/-- Helper for claim C10: a list of processable records is saved without
abort, so the index is created. -/
theorem save_games_completes :
    ∀ (recs : List SaveRec), (∀ x ∈ recs, saveRecNoAbort x = true) →
      ∃ idx, (save_games recs).indexRefs = some idx := by
  intro recs
  induction recs with
  | nil => intro _; exact ⟨[], rfl⟩
  | cons r rest ih =>
    intro h
    have hr := h r (by simp)
    have ht : ∀ x ∈ rest, saveRecNoAbort x = true := fun x hx => h x (by simp [hx])
    obtain ⟨idx, hidx⟩ := ih ht
    unfold saveRecNoAbort at hr
    rcases hv : r.validation with _ | b | n | s | xs | fs <;> rw [hv] at hr
    case jnull => exact absurd hr (by simp)
    case jbool => exact absurd hr (by simp)
    case jnum => exact absurd hr (by simp)
    case jstr => exact absurd hr (by simp)
    case jarr => exact absurd hr (by simp)
    case jobj =>
      by_cases hp : pyTruthy (jGetD (JValue.jobj fs) "passes_validation" (.jbool true)) = true
      · rw [if_pos hp] at hr
        obtain ⟨fh, hfh⟩ := Option.isSome_iff_exists.mp hr
        refine ⟨fh.1 :: idx, ?_⟩
        simp [save_games, hv, hp, hfh, hidx]
      · rw [Bool.not_eq_true] at hp
        simp only [save_games, hv, hp, Bool.false_eq_true, if_false]
        exact ⟨idx, hidx⟩

/-! ## Structural lemmas about stripping and formatting

These support the amended forms of claims C1 and C4. -/

/-- The head of a dropWhile result falsifies the predicate. -/
theorem head?_dropWhile_false (p : Char → Bool) :
    ∀ (l : List Char) (c : Char), (List.dropWhile p l).head? = some c → p c = false := by
  intro l
  induction l with
  | nil => intro c hc; simp at hc
  | cons a t ih =>
    intro c hc
    by_cases h : p a = true
    · rw [List.dropWhile_cons_of_pos h] at hc
      exact ih c hc
    · rw [List.dropWhile_cons_of_neg (by simp [h])] at hc
      simp only [List.head?_cons, Option.some.injEq] at hc
      rw [Bool.not_eq_true] at h
      rw [← hc]
      exact h

/-- Right-stripping yields a prefix of the list. -/
theorem pyRStrip_prefix (l : List Char) : pyRStrip l <+: l := by
  unfold pyRStrip
  have h := List.dropWhile_suffix (l := l.reverse) isSpaceCh
  have h2 := List.reverse_prefix.mpr h
  rwa [List.reverse_reverse] at h2

/-- The head of a non-empty stripped list is not whitespace. -/
theorem pyStrip_head {l : List Char} {c : Char} {t : List Char} (h : pyStrip l = c :: t) :
    isSpaceCh c = false := by
  unfold pyStrip at h
  have hpre := pyRStrip_prefix (pyLStrip l)
  rw [h] at hpre
  obtain ⟨s, hs⟩ := hpre
  have hhead : (List.dropWhile isSpaceCh l).head? = some c := by
    show (pyLStrip l).head? = some c
    rw [← hs]
    rfl
  exact head?_dropWhile_false isSpaceCh l c hhead

/-- Left-stripping is the identity when the head is not whitespace. -/
theorem pyLStrip_eq_self {l : List Char} {c : Char} (h : l.head? = some c)
    (hc : isSpaceCh c = false) : pyLStrip l = l := by
  cases l with
  | nil => rfl
  | cons d t =>
    simp only [List.head?_cons, Option.some.injEq] at h
    subst h
    exact List.dropWhile_cons_of_neg (by simp [hc])

/-- Right-stripping is the identity when the last character is not
whitespace. -/
theorem pyRStrip_eq_self {l : List Char} {c : Char} (h : l.getLast? = some c)
    (hc : isSpaceCh c = false) : pyRStrip l = l := by
  unfold pyRStrip
  rw [← List.head?_reverse] at h
  cases hrev : l.reverse with
  | nil => rw [hrev] at h; simp at h
  | cons d t =>
    rw [hrev] at h
    simp only [List.head?_cons, Option.some.injEq] at h
    subst h
    have hdw : List.dropWhile isSpaceCh (d :: t) = d :: t :=
      List.dropWhile_cons_of_neg (by simp [hc])
    calc (List.dropWhile isSpaceCh (d :: t)).reverse
        = (d :: t).reverse := by rw [hdw]
      _ = l.reverse.reverse := by rw [hrev]
      _ = l := List.reverse_reverse l

/-- Stripping is the identity when neither end is whitespace. -/
theorem pyStrip_eq_self {l : List Char} {c c' : Char} (h1 : l.head? = some c)
    (hc1 : isSpaceCh c = false) (h2 : l.getLast? = some c') (hc2 : isSpaceCh c' = false) :
    pyStrip l = l := by
  unfold pyStrip
  rw [pyLStrip_eq_self h1 hc1, pyRStrip_eq_self h2 hc2]

/-- The last character of a right-stripped list is not whitespace. -/
theorem pyRStrip_getLast {x : List Char} {c : Char} (h : (pyRStrip x).getLast? = some c) :
    isSpaceCh c = false := by
  unfold pyRStrip at h
  have hrev := List.head?_reverse (l := (x.reverse.dropWhile isSpaceCh).reverse)
  rw [List.reverse_reverse] at hrev
  rw [← hrev] at h
  exact head?_dropWhile_false isSpaceCh x.reverse c h

/-- Right-stripping erases the list exactly when it is all whitespace. -/
theorem pyRStrip_eq_nil_iff (l : List Char) :
    pyRStrip l = [] ↔ ∀ c ∈ l, isSpaceCh c = true := by
  unfold pyRStrip
  rw [List.reverse_eq_nil_iff, List.dropWhile_eq_nil_iff]
  constructor
  · intro h c hc; exact h c (List.mem_reverse.mpr hc)
  · intro h c hc; exact h c (List.mem_reverse.mp hc)

/-- Stripping erases the list exactly when it is all whitespace. -/
theorem pyStrip_eq_nil_iff (l : List Char) :
    pyStrip l = [] ↔ ∀ c ∈ l, isSpaceCh c = true := by
  unfold pyStrip pyLStrip
  rw [pyRStrip_eq_nil_iff]
  constructor
  · intro h c hc
    have hsplit := List.takeWhile_append_dropWhile (p := isSpaceCh) (l := l)
    rw [← hsplit] at hc
    rcases List.mem_append.mp hc with h1 | h2
    · exact List.mem_takeWhile_imp h1
    · exact h c h2
  · intro h c hc
    exact h c ((List.dropWhile_suffix isSpaceCh).sublist.mem hc)

/-- A list is all-whitespace exactly when its right-stripped form is. -/
theorem pyRStrip_all_space_iff (x : List Char) :
    (∀ c ∈ pyRStrip x, isSpaceCh c = true) ↔ (∀ c ∈ x, isSpaceCh c = true) := by
  constructor
  · intro h c hc
    have hsplit := List.takeWhile_append_dropWhile (p := isSpaceCh) (l := x.reverse)
    have hcrev : c ∈ x.reverse := List.mem_reverse.mpr hc
    rw [← hsplit] at hcrev
    rcases List.mem_append.mp hcrev with h1 | h2
    · exact List.mem_takeWhile_imp h1
    · refine h c ?_
      unfold pyRStrip
      exact List.mem_reverse.mpr h2
  · intro h c hc
    exact h c (mem_pyRStrip hc)

/-- Blank-line status is invariant under right-stripping. -/
theorem keepLine_pyRStrip (x : List Char) : keepLine (pyRStrip x) = keepLine x := by
  unfold keepLine
  congr 1
  rw [Bool.eq_iff_iff, List.isEmpty_iff, List.isEmpty_iff, pyStrip_eq_nil_iff,
    pyStrip_eq_nil_iff]
  exact pyRStrip_all_space_iff x

/-- dropWhile is idempotent. -/
theorem dropWhile_idem (p : Char → Bool) :
    ∀ (l : List Char), List.dropWhile p (List.dropWhile p l) = List.dropWhile p l := by
  intro l
  induction l with
  | nil => rfl
  | cons a t ih =>
    by_cases h : p a = true
    · rw [List.dropWhile_cons_of_pos h]
      exact ih
    · rw [List.dropWhile_cons_of_neg (by simp [h]), List.dropWhile_cons_of_neg (by simp [h])]

/-- Right-stripping is idempotent. -/
theorem pyRStrip_idem (x : List Char) : pyRStrip (pyRStrip x) = pyRStrip x := by
  unfold pyRStrip
  rw [List.reverse_reverse, dropWhile_idem]

/-- Splitting never yields the empty list of lines. -/
theorem splitNl_ne_nil : ∀ (l : List Char), splitNl l ≠ [] := by
  intro l
  cases l with
  | nil => simp [splitNl]
  | cons c r =>
    by_cases h : c = '\n'
    · simp [splitNl, h]
    · rcases hsp : splitNl r with _ | ⟨x, t⟩ <;> simp [splitNl, h, hsp]

/-- Lines produced by splitting contain no newline. -/
theorem splitNl_no_nl : ∀ (l ln : List Char), ln ∈ splitNl l → '\n' ∉ ln := by
  intro l
  induction l with
  | nil =>
    intro ln hln
    simp only [splitNl, List.mem_singleton] at hln
    subst hln
    simp
  | cons c r ih =>
    intro ln hln
    by_cases h : c = '\n'
    · rw [show splitNl (c :: r) = [] :: splitNl r by simp [splitNl, h]] at hln
      rcases List.mem_cons.mp hln with rfl | ht
      · simp
      · exact ih ln ht
    · rcases hsp : splitNl r with _ | ⟨x, t⟩
      · exact absurd hsp (splitNl_ne_nil r)
      rw [show splitNl (c :: r) = (c :: x) :: t by simp [splitNl, h, hsp]] at hln
      rcases List.mem_cons.mp hln with rfl | ht
      · intro hmem
        rcases List.mem_cons.mp hmem with heq | hx
        · exact h heq.symm
        · exact ih x (by simp [hsp]) hx
      · exact ih ln (by simp [hsp, ht])

/-- Splitting a newline-free list yields the single line. -/
theorem splitNl_single : ∀ (x : List Char), '\n' ∉ x → splitNl x = [x] := by
  intro x
  induction x with
  | nil => intro _; rfl
  | cons c r ih =>
    intro h
    have hc : ¬ c = '\n' := fun e => h (by simp [e])
    have hr : '\n' ∉ r := fun e => h (by simp [e])
    simp [splitNl, hc, ih hr]

/-- Splitting after a newline-free prefix peels exactly that prefix. -/
theorem splitNl_append_nl : ∀ (x z : List Char), '\n' ∉ x →
    splitNl (x ++ '\n' :: z) = x :: splitNl z := by
  intro x
  induction x with
  | nil => intro z _; simp [splitNl]
  | cons c r ih =>
    intro z h
    have hc : ¬ c = '\n' := fun e => h (by simp [e])
    have hr : '\n' ∉ r := fun e => h (by simp [e])
    simp [splitNl, hc, ih z hr]

/-- Splitting inverts joining for non-empty lists of newline-free lines. -/
theorem splitNl_joinNl : ∀ (xs : List (List Char)), xs ≠ [] → (∀ x ∈ xs, '\n' ∉ x) →
    splitNl (joinNl xs) = xs := by
  intro xs
  induction xs with
  | nil => intro h _; exact absurd rfl h
  | cons y t ih =>
    intro _ hnl
    cases t with
    | nil => exact splitNl_single y (hnl y (by simp))
    | cons z t' =>
      rw [show joinNl (y :: z :: t') = y ++ '\n' :: joinNl (z :: t') from rfl]
      rw [splitNl_append_nl y _ (hnl y (by simp))]
      rw [ih (by simp) (fun x hx => hnl x (by simp [hx]))]

/-- Mapping a function that fixes every element is the identity. -/
theorem map_eq_self_of (f : List Char → List Char) :
    ∀ (l : List (List Char)), (∀ x ∈ l, f x = x) → l.map f = l := by
  intro l
  induction l with
  | nil => intro _; rfl
  | cons a t ih =>
    intro h
    simp only [List.map_cons, h a (by simp), ih (fun x hx => h x (by simp [hx]))]

/-- Joining a list with a non-empty member is non-empty. -/
theorem joinNl_ne_nil' : ∀ (xs : List (List Char)) (x : List Char), x ∈ xs → x ≠ [] →
    joinNl xs ≠ [] := by
  intro xs
  cases xs with
  | nil => intro x hx; simp at hx
  | cons y t =>
    intro x hx hxne
    cases t with
    | nil =>
      rcases List.mem_singleton.mp hx with rfl
      simpa [joinNl] using hxne
    | cons z t' =>
      show joinNl (y :: z :: t') ≠ []
      rw [show joinNl (y :: z :: t') = y ++ '\n' :: joinNl (z :: t') from rfl]
      simp

/-- The last character of a join of non-empty lines with non-whitespace
last characters is not whitespace. -/
theorem joinNl_getLast_not_space :
    ∀ (xs : List (List Char)),
      (∀ y ∈ xs, y ≠ [] ∧ ∀ c, y.getLast? = some c → isSpaceCh c = false) →
      ∀ c, (joinNl xs).getLast? = some c → isSpaceCh c = false := by
  intro xs
  induction xs with
  | nil => intro _ c hc; simp [joinNl] at hc
  | cons y t ih =>
    intro h c hc
    cases t with
    | nil => exact (h y (by simp)).2 c (by simpa [joinNl] using hc)
    | cons z t' =>
      rw [show joinNl (y :: z :: t') = y ++ '\n' :: joinNl (z :: t') from rfl] at hc
      rw [List.getLast?_append_of_ne_nil _ (by simp)] at hc
      have hJ : joinNl (z :: t') ≠ [] :=
        joinNl_ne_nil' (z :: t') z (by simp) (h z (by simp)).1
      cases hJcase : joinNl (z :: t') with
      | nil => exact absurd hJcase hJ
      | cons a b =>
        rw [hJcase, List.getLast?_cons_cons] at hc
        exact ih (fun x hx => h x (by simp [hx])) c (by rw [hJcase]; exact hc)

/-- The formatter's output never ends in whitespace. -/
theorem format_last (l : List Char) :
    ∀ c, (formatHtml l).getLast? = some c → isSpaceCh c = false := by
  intro c hc
  unfold formatHtml at hc
  refine joinNl_getLast_not_space _ ?_ c hc
  intro y hy
  obtain ⟨x, hx, rfl⟩ := List.mem_map.mp hy
  have hkx : keepLine x = true := (List.mem_filter.mp hx).2
  constructor
  · intro e
    rw [pyRStrip_eq_nil_iff] at e
    have hps : pyStrip x = [] := (pyStrip_eq_nil_iff x).mpr e
    unfold keepLine at hkx
    rw [hps] at hkx
    simp at hkx
  · intro c' hc'
    exact pyRStrip_getLast hc'

/-- The formatter is idempotent. -/
theorem format_idem (l : List Char) : formatHtml (formatHtml l) = formatHtml l := by
  have hnl : ∀ y ∈ ((splitNl l).filter keepLine).map pyRStrip, '\n' ∉ y := by
    intro y hy
    obtain ⟨x, hx, rfl⟩ := List.mem_map.mp hy
    exact fun hmem => splitNl_no_nl l x (List.mem_filter.mp hx).1 (mem_pyRStrip hmem)
  have hkeep : ∀ y ∈ ((splitNl l).filter keepLine).map pyRStrip, keepLine y = true := by
    intro y hy
    obtain ⟨x, hx, rfl⟩ := List.mem_map.mp hy
    rw [keepLine_pyRStrip]
    exact (List.mem_filter.mp hx).2
  have hfix : ∀ y ∈ ((splitNl l).filter keepLine).map pyRStrip, pyRStrip y = y := by
    intro y hy
    obtain ⟨x, hx, rfl⟩ := List.mem_map.mp hy
    exact pyRStrip_idem x
  cases hys : ((splitNl l).filter keepLine).map pyRStrip with
  | nil =>
    unfold formatHtml
    rw [hys]
    rfl
  | cons y t =>
    unfold formatHtml
    rw [hys] at hnl hkeep hfix
    rw [hys]
    rw [splitNl_joinNl (y :: t) (by simp) hnl]
    rw [List.filter_eq_self.mpr hkeep, map_eq_self_of _ _ hfix]

/-- Every non-newline character of the text occurs in one of its lines. -/
theorem mem_splitNl_of_mem : ∀ (l : List Char) (c : Char), c ∈ l → c ≠ '\n' →
    ∃ ln ∈ splitNl l, c ∈ ln := by
  intro l
  induction l with
  | nil => intro c hc; simp at hc
  | cons d r ih =>
    intro c hc hnec
    by_cases hd : d = '\n'
    · subst hd
      rcases List.mem_cons.mp hc with rfl | hr
      · exact absurd rfl hnec
      · obtain ⟨ln, hln, hcln⟩ := ih c hr hnec
        exact ⟨ln, by simp [splitNl, hln], hcln⟩
    · rcases hsp : splitNl r with _ | ⟨x, t⟩
      · exact absurd hsp (splitNl_ne_nil r)
      rcases List.mem_cons.mp hc with rfl | hr
      · exact ⟨c :: x, by simp [splitNl, hd, hsp], by simp⟩
      · obtain ⟨ln, hln, hcln⟩ := ih c hr hnec
        rw [hsp] at hln
        rcases List.mem_cons.mp hln with rfl | hlt
        · exact ⟨d :: ln, by simp [splitNl, hd, hsp], by simp [hcln]⟩
        · exact ⟨ln, by simp [splitNl, hd, hsp, hlt], hcln⟩

/-- The formatter keeps a line with a non-whitespace character, so its
output is non-empty. -/
theorem format_ne_nil {l : List Char} (h : ∃ c ∈ l, isSpaceCh c = false) :
    formatHtml l ≠ [] := by
  obtain ⟨c, hc, hcs⟩ := h
  have hne : c ≠ '\n' := fun e => by rw [e] at hcs; exact absurd hcs (by decide)
  obtain ⟨ln, hln, hcln⟩ := mem_splitNl_of_mem l c hc hne
  have hkeep : keepLine ln = true := by
    have hps : pyStrip ln ≠ [] := by
      intro e
      have := (pyStrip_eq_nil_iff ln).mp e c hcln
      rw [hcs] at this
      exact absurd this (by decide)
    unfold keepLine
    cases hx : pyStrip ln with
    | nil => exact absurd hx hps
    | cons a b => simp [hx]
  have hmem : pyRStrip ln ∈ ((splitNl l).filter keepLine).map pyRStrip :=
    List.mem_map_of_mem _ (List.mem_filter.mpr ⟨hln, hkeep⟩)
  have hlnne : pyRStrip ln ≠ [] := by
    intro e
    rw [pyRStrip_eq_nil_iff] at e
    have := e c hcln
    rw [hcs] at this
    exact absurd this (by decide)
  unfold formatHtml
  exact joinNl_ne_nil' _ _ hmem hlnne

/-! ## Identity of the fence substitutions on fence-free text -/

/-- The generic identity argument for a single global substitution: if the
matcher can never fire on any state/suffix reachable by the scan, the
substitution copies the input. -/
theorem reSub_id_of (m : Bool → List Char → Option (List Char)) (P : Bool → List Char → Prop)
    (hm : ∀ b c r, P b (c :: r) → m b (c :: r) = none)
    (hstep : ∀ b c r, P b (c :: r) → P (c = '\n') r) :
    ∀ (fuel : Nat) (b : Bool) (l : List Char), P b l → reSub m fuel b l = l := by
  intro fuel
  induction fuel with
  | zero => intro b l _; rfl
  | succ f ih =>
    intro b l hP
    cases l with
    | nil => rfl
    | cons c r =>
      simp only [reSub, hm b c r hP]
      rw [ih (c = '\n') r (hstep b c r hP)]

/-- A fence marker cannot start at a backtick-free position. -/
theorem startsWithL_fence3_false {l : List Char} (h : tickCh ∉ l) :
    startsWithL fence3 l = false := by
  cases l with
  | nil => rfl
  | cons c r =>
    have hne : ¬ (tickCh = c) := fun e => h (by rw [e]; exact List.mem_cons_self c r)
    simp [fence3, startsWithL, hne]

/-- The fenced-html matcher never fires on backtick-free text. -/
theorem mFenceHtml_none {b : Bool} {c : Char} {r : List Char} (h : tickCh ∉ (c :: r)) :
    mFenceHtml b (c :: r) = none := by
  unfold mFenceHtml
  rw [startsWithL_fence3_false h]
  simp

/-- The fence matcher never fires on backtick-free text. -/
theorem mFence_none {b : Bool} {c : Char} {r : List Char} (h : tickCh ∉ (c :: r)) :
    mFence b (c :: r) = none := by
  unfold mFence
  rw [startsWithL_fence3_false h]
  simp

/-- The line-end fence matcher never fires on backtick-free text. -/
theorem mFenceEnd_none {b : Bool} {c : Char} {r : List Char} (h : tickCh ∉ (c :: r)) :
    mFenceEnd b (c :: r) = none := by
  have hr : tickCh ∉ r := fun e => h (by simp [e])
  simp [mFenceEnd, startsWithL_fence3_false h, startsWithL_fence3_false hr]

/-- The second line-end fence matcher never fires on backtick-free text. -/
theorem mFenceEnd2_none {b : Bool} {c : Char} {r : List Char} (h : tickCh ∉ (c :: r)) :
    mFenceEnd2 b (c :: r) = none := by
  unfold mFenceEnd2
  rw [startsWithL_fence3_false h]
  simp

/-- The `html`-word matcher never fires when the scan predicate holds. -/
theorem mHtmlWord_none {b : Bool} {c : Char} {r : List Char}
    (h : noHtmlAtLS b (c :: r) = true) : mHtmlWord b (c :: r) = none := by
  unfold noHtmlAtLS at h
  rw [Bool.and_eq_true] at h
  have h1 := h.1
  rw [Bool.not_eq_true'] at h1
  unfold mHtmlWord
  rw [h1]
  simp

/-- A whole-string substitution with a backtick-needing matcher is the
identity on backtick-free text. -/
theorem reSubAll_id_of_no_tick {m : Bool → List Char → Option (List Char)}
    (hm : ∀ (b : Bool) (c : Char) (r : List Char), tickCh ∉ (c :: r) → m b (c :: r) = none)
    {l : List Char} (h : tickCh ∉ l) : reSubAll m l = l :=
  reSub_id_of m (fun _ l' => tickCh ∉ l') hm
    (fun _ c _ hP e => hP (List.mem_cons_of_mem c e)) (l.length + 1) true l h

/-- The `html`-word substitution is the identity when no line starts with
`html`. -/
theorem reSubAll_mHtmlWord_id {l : List Char} (h : noHtmlAtLS true l = true) :
    reSubAll mHtmlWord l = l :=
  reSub_id_of mHtmlWord (fun b l' => noHtmlAtLS b l' = true)
    (fun _ c r hP => mHtmlWord_none hP)
    (fun b c r hP => by
      unfold noHtmlAtLS at hP
      rw [Bool.and_eq_true] at hP
      exact hP.2)
    (l.length + 1) true l h

/-- The whole fence-stripping pass is the identity on text without
backticks and without a line starting with `html`. -/
theorem fenceStrip_id {l : List Char} (ht : tickCh ∉ l) (hh : noHtmlAtLS true l = true) :
    fenceStrip l = l := by
  unfold fenceStrip
  rw [reSubAll_id_of_no_tick (fun _ c r h => mFenceHtml_none h) ht,
    reSubAll_id_of_no_tick (fun _ c r h => mFence_none h) ht,
    reSubAll_id_of_no_tick (fun _ c r h => mFenceEnd_none h) ht,
    reSubAll_id_of_no_tick (fun _ c r h => mFenceEnd2_none h) ht,
    reSubAll_mHtmlWord_id hh]

/-- A list starting with a needle decomposes as the needle plus a rest. -/
theorem startsWithL_exists {ns l : List Char} (h : startsWithL ns l = true) :
    ∃ r, l = ns ++ r := by
  induction ns generalizing l with
  | nil => exact ⟨l, rfl⟩
  | cons n t ih =>
    cases l with
    | nil => simp [startsWithL] at h
    | cons c cs =>
      unfold startsWithL at h
      rw [Bool.and_eq_true] at h
      have h1 : n = c := by simpa using h.1
      obtain ⟨r, hr⟩ := ih h.2
      exact ⟨r, by rw [h1, hr]; rfl⟩

/-- A needle is a prefix of itself plus anything. -/
theorem startsWithL_append_self : ∀ (ns r : List Char), startsWithL ns (ns ++ r) = true := by
  intro ns
  induction ns with
  | nil => intro r; rfl
  | cons n t ih => intro r; simp [startsWithL, ih r]

/-- A literal `<!DOCTYPE` prefix satisfies the source's case-folded check. -/
theorem upperStartsDoctype_of {l : List Char} (h : startsWithL "<!DOCTYPE".data l = true) :
    upperStartsDoctype l = true := by
  obtain ⟨r, rfl⟩ := startsWithL_exists h
  unfold upperStartsDoctype
  rw [List.map_append]
  rw [show List.map upperCh "<!DOCTYPE".data = "<!DOCTYPE".data from by decide]
  exact startsWithL_append_self _ _

/-- Claim C1, amended: the sanitizer is a total function, and its result is
non-empty whenever the input still has content after markdown-fence
stripping and whitespace trimming (a non-empty input consisting only of
fence markers can come out empty, as the counterexample shows). -/
theorem c1_clean_nonempty_amended (s : String)
    (h : pyStrip (fenceStrip (pyStrip s.data)) ≠ []) :
    clean_html_response s ≠ "" := by
  rcases hc6 : pyStrip (fenceStrip (pyStrip s.data)) with _ | ⟨c, t⟩
  · exact absurd hc6 h
  have hcs : isSpaceCh c = false := pyStrip_head hc6
  have hmain : ∃ d ∈ doctypeStep (pyStrip (fenceStrip (pyStrip s.data))), isSpaceCh d = false := by
    unfold doctypeStep
    by_cases h1 : upperStartsDoctype (pyStrip (fenceStrip (pyStrip s.data))) = true
    · rw [if_pos h1]
      exact ⟨c, by rw [hc6]; simp, hcs⟩
    · rw [if_neg h1]
      cases hf : findHtmlStart (pyStrip (fenceStrip (pyStrip s.data))) with
      | some suffix =>
        exact ⟨'<', List.mem_append_left _ (by decide), by decide⟩
      | none =>
        by_cases h2 : (containsSub "<head>".data ((pyStrip (fenceStrip (pyStrip s.data))).map lowerCh)
            || containsSub "<body>".data ((pyStrip (fenceStrip (pyStrip s.data))).map lowerCh)) = true
        · rw [if_pos h2]
          exact ⟨'<', List.mem_append_left _ (List.mem_append_left _ (by decide)), by decide⟩
        · rw [if_neg h2]
          exact ⟨c, by rw [hc6]; simp, hcs⟩
  have hfmt := format_ne_nil hmain
  intro heq
  apply hfmt
  have hdata : (clean_html_response s).data = ("" : String).data := by rw [heq]
  simpa [clean_html_response, cleanCore] using hdata

/-- Claim C4, amended: the sanitizer is idempotent on every input whose
sanitized output contains no backtick, has no line beginning with the
letters `html`, and starts with the literal `<!DOCTYPE` — i.e. whenever no
further fence-stripping or wrapping can occur, a second application changes
nothing.  (The counterexample shows the unrestricted claim fails when the
output retains a line-initial `html`.) -/
theorem c4_idempotent_amended (s : String)
    (h1 : tickCh ∉ (clean_html_response s).data)
    (h2 : noHtmlAtLS true (clean_html_response s).data = true)
    (h3 : startsWithL "<!DOCTYPE".data (clean_html_response s).data = true) :
    clean_html_response (clean_html_response s) = clean_html_response s := by
  have hX : (clean_html_response s).data =
      formatHtml (doctypeStep (pyStrip (fenceStrip (pyStrip s.data)))) := rfl
  obtain ⟨r, hr⟩ := startsWithL_exists h3
  have hhead : ((clean_html_response s).data).head? = some '<' := by rw [hr]; rfl
  have hne : (clean_html_response s).data ≠ [] := by rw [hr]; simp
  obtain ⟨cl, hcl⟩ : ∃ c, ((clean_html_response s).data).getLast? = some c := by
    cases hg : ((clean_html_response s).data).getLast? with
    | none => exact absurd (List.getLast?_eq_none_iff.mp hg) hne
    | some c => exact ⟨c, rfl⟩
  have hlast : isSpaceCh cl = false := format_last _ cl (by rw [← hX]; exact hcl)
  have hstrip : pyStrip (clean_html_response s).data = (clean_html_response s).data :=
    pyStrip_eq_self hhead (by decide) hcl hlast
  have hfence : fenceStrip (clean_html_response s).data = (clean_html_response s).data :=
    fenceStrip_id h1 h2
  have hdt : doctypeStep (clean_html_response s).data = (clean_html_response s).data := by
    unfold doctypeStep
    rw [upperStartsDoctype_of h3]
    rfl
  have hfmt : formatHtml (clean_html_response s).data = (clean_html_response s).data := by
    rw [hX]
    exact format_idem _
  have hcore : cleanCore (clean_html_response s).data = (clean_html_response s).data := by
    unfold cleanCore
    rw [hstrip, hfence, hstrip, hdt, hfmt]
  show String.mk (cleanCore (clean_html_response s).data) = clean_html_response s
  rw [hcore]

/-- Claim C4, witness: on `"<html><body>hi</body></html>"` the sanitized
output satisfies the three stability conditions, and a second application
leaves it unchanged. -/
theorem c4_idempotent_witness :
    (tickCh ∉ (clean_html_response "<html><body>hi</body></html>").data) ∧
    (noHtmlAtLS true (clean_html_response "<html><body>hi</body></html>").data = true) ∧
    (startsWithL "<!DOCTYPE".data (clean_html_response "<html><body>hi</body></html>").data = true) ∧
    clean_html_response (clean_html_response "<html><body>hi</body></html>") =
      clean_html_response "<html><body>hi</body></html>" :=
  ⟨by decide, by decide, by decide,
    c4_idempotent_amended "<html><body>hi</body></html>" (by decide) (by decide) (by decide)⟩

/-- Claim C1, witness: on `"<body>x</body>"` the fence-stripped trimmed
input is non-empty and the sanitizer's output is non-empty. -/
theorem c1_clean_nonempty_witness :
    (pyStrip (fenceStrip (pyStrip ("<body>x</body>" : String).data)) ≠ []) ∧
    clean_html_response "<body>x</body>" ≠ "" :=
  ⟨by decide, c1_clean_nonempty_amended "<body>x</body>" (by decide)⟩

/-- Claim C10 (confirmed): a validation response whose extracted text fails
to parse yields the fallback object, which has no `passes_validation`
field and therefore passes the save step's default-true check; and in a
processable results list, any record whose validation object lacks the
field has its file written and its filename listed in the index. -/
theorem c10_missing_field_passes :
    (∀ (loads : String → Option JValue) (rsp : String),
      loads (extractJsonText rsp) = none →
      jLookup (parse_json_response loads rsp) "passes_validation" = none ∧
      pyTruthy (jGetD (parse_json_response loads rsp) "passes_validation" (.jbool true)) = true) ∧
    (∀ (recs : List SaveRec) (r : SaveRec) (fh : String × String),
      (∀ x ∈ recs, saveRecNoAbort x = true) → r ∈ recs →
      jLookup r.validation "passes_validation" = none →
      fileOf r = some fh →
      fh ∈ (save_games recs).written ∧
      ∃ idx, (save_games recs).indexRefs = some idx ∧ fh.1 ∈ idx) := by
  constructor
  · intro loads rsp h
    unfold parse_json_response
    rw [h]
    exact ⟨rfl, rfl⟩
  · intro recs
    induction recs with
    | nil => intro r fh _ hmem; simp at hmem
    | cons q rest ih =>
      intro r fh hall hmem hnone hfile
      have hq := hall q (by simp)
      have htail : ∀ x ∈ rest, saveRecNoAbort x = true := fun x hx => hall x (by simp [hx])
      rcases List.mem_cons.mp hmem with rfl | hmem'
      · unfold saveRecNoAbort at hq
        rcases hv : r.validation with _ | b | n | st | xs | fs <;> rw [hv] at hq
        case jnull => exact absurd hq (by simp)
        case jbool => exact absurd hq (by simp)
        case jnum => exact absurd hq (by simp)
        case jstr => exact absurd hq (by simp)
        case jarr => exact absurd hq (by simp)
        case jobj =>
          have hp : pyTruthy (jGetD (JValue.jobj fs) "passes_validation" (.jbool true)) = true := by
            unfold jGetD
            rw [← hv, hnone]
            rfl
          obtain ⟨idx, hidx⟩ := save_games_completes rest htail
          constructor
          · simp [save_games, hv, hp, hfile]
          · exact ⟨fh.1 :: idx, by simp [save_games, hv, hp, hfile, hidx], by simp⟩
      · obtain ⟨hw, idx, hidx, hfidx⟩ := ih r fh htail hmem' hnone hfile
        unfold saveRecNoAbort at hq
        rcases hv : q.validation with _ | b | n | st | xs | fs <;> rw [hv] at hq
        case jnull => exact absurd hq (by simp)
        case jbool => exact absurd hq (by simp)
        case jnum => exact absurd hq (by simp)
        case jstr => exact absurd hq (by simp)
        case jarr => exact absurd hq (by simp)
        case jobj =>
          by_cases hp : pyTruthy (jGetD (JValue.jobj fs) "passes_validation" (.jbool true)) = true
          · rw [if_pos hp] at hq
            obtain ⟨fh', hfh'⟩ := Option.isSome_iff_exists.mp hq
            constructor
            · have hwr : (save_games (q :: rest)).written = fh' :: (save_games rest).written := by
                simp [save_games, hv, hp, hfh']
              rw [hwr]
              exact List.mem_cons_of_mem _ hw
            · refine ⟨fh'.1 :: idx, ?_, List.mem_cons_of_mem _ hfidx⟩
              simp [save_games, hv, hp, hfh', hidx]
          · rw [Bool.not_eq_true] at hp
            have hred : save_games (q :: rest) = save_games rest := by
              simp [save_games, hv, hp]
            rw [hred]
            exact ⟨hw, idx, hidx, hfidx⟩

/-- Claim C10, witness: a single-record list whose validation is the
parse-fallback object is written to `game_02_T.html` and indexed. -/
theorem c10_missing_field_witness :
    ((fun _ => (none : Option JValue)) (extractJsonText "not json at all") =
      (none : Option JValue)) ∧
    (∀ x ∈ [c10Rec], saveRecNoAbort x = true) ∧
    (c10Rec ∈ [c10Rec]) ∧
    (jLookup c10Rec.validation "passes_validation" = none) ∧
    (fileOf c10Rec = some ("game_02_T.html", "<p>x</p>")) ∧
    (jLookup (parse_json_response (fun _ => none) "not json at all") "passes_validation" = none ∧
      pyTruthy (jGetD (parse_json_response (fun _ => none) "not json at all") "passes_validation"
        (.jbool true)) = true) ∧
    (("game_02_T.html", "<p>x</p>") ∈ (save_games [c10Rec]).written ∧
      ∃ idx, (save_games [c10Rec]).indexRefs = some idx ∧ "game_02_T.html" ∈ idx) :=
  ⟨rfl, by decide, by simp, rfl, rfl,
    c10_missing_field_passes.1 (fun _ => none) "not json at all" rfl,
    c10_missing_field_passes.2 [c10Rec] c10Rec ("game_02_T.html", "<p>x</p>")
      (by decide) (by simp) rfl rfl⟩

end GameGen
